import Mathlib

/-!
Verification of the bloodbath interpreter (a minimal prefix-notation
expression language): shallow embedding of `src/reader.rs`,
`src/interpreter.rs` and `src/builtins.rs`.

Modelling conventions:
* `i64` is modelled as `Int`; where the Rust arithmetic can overflow the
  result is reduced with `wrap64` (the release-mode two's-complement
  wraparound of the host's 64-bit arithmetic, which the spec fixes as the
  intended semantics).
* `f64` is modelled as `Rat`; every floating-point value reached by the
  claims under scrutiny (e.g. `3.5 = 7/2`) is exactly representable, and no
  claim depends on rounding.
* Rust panics (integer division by zero, remainder overflow, out-of-bounds
  indexing) are modelled by `Option`/an explicit `trap` outcome: `none`
  means the host computation traps instead of returning a value.
* The recursive-descent parser and the token/evaluation loops take an
  explicit fuel argument; fuel exhaustion is unreachable for the fuel
  supplied by the entry points (every loop iteration consumes input), and
  all theorems either quantify over the fuel or evaluate concrete runs.
-/

namespace Bloodbath

/-- Decidable equality of `Except` results, so that concrete runs of the
fallible reader and parser can be settled by `decide`. -/
instance {ε α : Type} [DecidableEq ε] [DecidableEq α] :
    DecidableEq (Except ε α) := fun a b =>
  match a, b with
  | .ok x, .ok y =>
    if h : x = y then .isTrue (by rw [h]) else .isFalse (by simp [h])
  | .error x, .error y =>
    if h : x = y then .isTrue (by rw [h]) else .isFalse (by simp [h])
  | .ok _, .error _ => .isFalse (by simp)
  | .error _, .ok _ => .isFalse (by simp)

/-- Two's-complement wraparound of 64-bit signed arithmetic: the unique
representative of `x` modulo `2^64` lying in `[-2^63, 2^63)`. -/
def wrap64 (x : Int) : Int := (x + 2 ^ 63) % 2 ^ 64 - 2 ^ 63

/-- The smallest `i64` value, `-2^63`. -/
def i64Min : Int := -(2 ^ 63)

/-- Identity of the four builtin implementations registered by
`Bloodbath::new` (`src/interpreter.rs`, lines 73-76).  The Rust
`FunctionImplementation` wraps an `Rc<dyn Fn>` compared by pointer
identity; exactly these four closures are ever created, so identity
comparison is modelled by this four-element enumeration. -/
inductive FnImpl where
  | add
  | sub
  | mul
  | div
deriving DecidableEq, Repr

/-- The runtime value (`Object` as used by `src/interpreter.rs` and
`src/builtins.rs`): `Noop`, 64-bit integers, 64-bit floats and first-class
functions carrying their arity. -/
inductive Object where
  | Noop : Object
  | Integer (value : Int) : Object
  | Float (value : Rat) : Object
  | Function (argument_count : Nat) (implementation : FnImpl) : Object
deriving DecidableEq, Repr

/-- `Object::get_integer`. -/
def getInteger : Object → Option Int
  | .Integer v => some v
  | _ => none

/-- `Object::get_float`. -/
def getFloat : Object → Option Rat
  | .Float v => some v
  | _ => none

/-- Indexing `args[i]` of a Rust `Vec`: `none` models the out-of-bounds
panic. -/
def argAt : List Object → Nat → Option Object
  | [], _ => none
  | a :: _, 0 => some a
  | _ :: t, n + 1 => argAt t n

/-- `builtins::add` (`src/builtins.rs`, lines 3-19).  `none` models a host
panic (out-of-bounds argument access); the sum wraps per two's complement. -/
def addFn (args : List Object) : Option Object :=
  match argAt args 0 with
  | none => none
  | some a0 =>
    match getInteger a0 with
    | some a =>
      match argAt args 1 with
      | none => none
      | some a1 =>
        match getInteger a1 with
        | some b => some (.Integer (wrap64 (a + b)))
        | none =>
          match getFloat a1 with
          | some b => some (.Float ((a : Rat) + b))
          | none => some .Noop
    | none =>
      match getFloat a0 with
      | some a =>
        match argAt args 1 with
        | none => none
        | some a1 =>
          match getInteger a1 with
          | some b => some (.Float (a + (b : Rat)))
          | none =>
            match getFloat a1 with
            | some b => some (.Float (a + b))
            | none => some .Noop
      | none => some .Noop

/-- `builtins::sub` (`src/builtins.rs`, lines 21-37). -/
def subFn (args : List Object) : Option Object :=
  match argAt args 0 with
  | none => none
  | some a0 =>
    match getInteger a0 with
    | some a =>
      match argAt args 1 with
      | none => none
      | some a1 =>
        match getInteger a1 with
        | some b => some (.Integer (wrap64 (a - b)))
        | none =>
          match getFloat a1 with
          | some b => some (.Float ((a : Rat) - b))
          | none => some .Noop
    | none =>
      match getFloat a0 with
      | some a =>
        match argAt args 1 with
        | none => none
        | some a1 =>
          match getInteger a1 with
          | some b => some (.Float (a - (b : Rat)))
          | none =>
            match getFloat a1 with
            | some b => some (.Float (a - b))
            | none => some .Noop
      | none => some .Noop

/-- `builtins::mul` (`src/builtins.rs`, lines 39-55). -/
def mulFn (args : List Object) : Option Object :=
  match argAt args 0 with
  | none => none
  | some a0 =>
    match getInteger a0 with
    | some a =>
      match argAt args 1 with
      | none => none
      | some a1 =>
        match getInteger a1 with
        | some b => some (.Integer (wrap64 (a * b)))
        | none =>
          match getFloat a1 with
          | some b => some (.Float ((a : Rat) * b))
          | none => some .Noop
    | none =>
      match getFloat a0 with
      | some a =>
        match argAt args 1 with
        | none => none
        | some a1 =>
          match getInteger a1 with
          | some b => some (.Float (a * (b : Rat)))
          | none =>
            match getFloat a1 with
            | some b => some (.Float (a * b))
            | none => some .Noop
      | none => some .Noop

/-- `builtins::div` (`src/builtins.rs`, lines 57-77).  On two integers the
Rust code evaluates `a % b` first: this traps (modelled by `none`) when
`b = 0` (division by zero) or when `a = i64::MIN` and `b = -1` (remainder
overflow, a panic in every build profile).  Otherwise a divisible pair
yields `Integer(a / b)` (truncated division, exact here) and a
non-divisible pair the float quotient. -/
def divFn (args : List Object) : Option Object :=
  match argAt args 0 with
  | none => none
  | some a0 =>
    match getInteger a0 with
    | some a =>
      match argAt args 1 with
      | none => none
      | some a1 =>
        match getInteger a1 with
        | some b =>
          if b = 0 ∨ (a = i64Min ∧ b = -1) then none
          else if a.tmod b = 0 then some (.Integer (a.tdiv b))
          else some (.Float ((a : Rat) / (b : Rat)))
        | none =>
          match getFloat a1 with
          | some b => some (.Float ((a : Rat) / b))
          | none => some .Noop
    | none =>
      match getFloat a0 with
      | some a =>
        match argAt args 1 with
        | none => none
        | some a1 =>
          match getInteger a1 with
          | some b => some (.Float (a / (b : Rat)))
          | none =>
            match getFloat a1 with
            | some b => some (.Float (a / b))
            | none => some .Noop
      | none => some .Noop

/-- `FunctionImplementation::call` (`src/object.rs`): dispatch to the
builtin closure. -/
def FnImpl.call : FnImpl → List Object → Option Object
  | .add, args => addFn args
  | .sub, args => subFn args
  | .mul, args => mulFn args
  | .div, args => divFn args

/-! ## The environment (`Bloodbath::environment`, a `HashMap<String, Object>`) -/

/-- The name-to-value store, modelled as an association list with unique
keys (insertion removes the shadowed entry, so lookup agrees with
`HashMap` semantics). -/
def Environment : Type := List (String × Object)

instance : DecidableEq Environment := by
  unfold Environment
  infer_instance

/-- `HashMap::get`. -/
def envLookup : Environment → String → Option Object
  | [], _ => none
  | (k, v) :: rest, name => if k = name then some v else envLookup rest name

/-- Removal of every binding of `name` (auxiliary for faithful
`HashMap::insert` overwrite semantics). -/
def envErase : Environment → String → Environment
  | [], _ => []
  | (k, v) :: rest, name =>
    if k = name then envErase rest name else (k, v) :: envErase rest name

/-- `Bloodbath::variable_set` (`src/interpreter.rs`, lines 91-94):
unconditional overwrite. -/
def variableSet (env : Environment) (name : String) (v : Object) : Environment :=
  (name, v) :: envErase env name

/-- `Bloodbath::variable_get` (`src/interpreter.rs`, lines 81-89): return
the bound value, or bind the name to `Noop` and return `Noop`
(auto-vivification).  The possibly-updated environment is returned
alongside the value. -/
def variableGet (env : Environment) (name : String) : Object × Environment :=
  match envLookup env name with
  | some v => (v, env)
  | none => (.Noop, variableSet env name .Noop)

/-- The environment installed by `Bloodbath::new` (`src/interpreter.rs`,
lines 68-79): `+ - * /` bound to the four arity-2 builtins, in order. -/
def defaultEnv : Environment :=
  variableSet
    (variableSet
      (variableSet
        (variableSet [] "+" (.Function 2 .add))
        "-" (.Function 2 .sub))
      "*" (.Function 2 .mul))
    "/" (.Function 2 .div)

/-! ## The lexer (`src/reader.rs`) -/

/-- `reader::Token` as consumed by the parser in `src/interpreter.rs`
(which matches on `Token::LeftBrace` and `Token::RightBrace` in addition
to the three variants declared in `src/reader.rs`; the lexer in
`src/reader.rs` only ever produces the first three). -/
inductive Token where
  | Identifier (name : String) : Token
  | IntegerConstant (value : Int) : Token
  | FloatConstant (value : Rat) : Token
  | LeftBrace : Token
  | RightBrace : Token
deriving DecidableEq, Repr

/-- `reader::ReaderError`. -/
inductive ReaderError where
  | EoF : ReaderError
  | ExpectedADigit (c : Char) : ReaderError
  | UnexpectedCharacter (c : Char) : ReaderError
deriving DecidableEq, Repr

/-- `List.get?`, spelt out so that all index lemmas are proved here. -/
def listNth : List Char → Nat → Option Char
  | [], _ => none
  | a :: _, 0 => some a
  | _ :: t, n + 1 => listNth t n

/-- `Reader::peek` (`src/reader.rs`, lines 25-28): the character `amount`
places beyond the current position, or `EoF`. -/
def peek (input : List Char) (pos amount : Nat) : Except ReaderError Char :=
  match listNth input (pos + amount) with
  | some c => .ok c
  | none => .error .EoF

/-- `Reader::current`. -/
def curr (input : List Char) (pos : Nat) : Except ReaderError Char :=
  peek input pos 0

/-- `Reader::is_separator` (`src/reader.rs`, line 52). -/
def isSeparator (c : Char) : Bool :=
  c = ' ' ∨ c = '\t' ∨ c = '\n' ∨ c = '\r'

/-- Legality test of `Reader::read_identifier` (`src/reader.rs`, lines
121-133): the fixed ranges of identifier characters.  Note that `'{'`
(code 123) and `'}'` (code 125) fall in none of the ranges. -/
def legalIdentChar (c : Char) : Bool :=
  ('a' ≤ c ∧ c ≤ 'z') ∨ ('A' ≤ c ∧ c ≤ 'Z') ∨ ('0' ≤ c ∧ c ≤ '9') ∨
  c = '!' ∨ ('#' ≤ c ∧ c ≤ '/') ∨ c = ':' ∨ ('<' ≤ c ∧ c ≤ '@') ∨
  c = '\\' ∨ ('^' ≤ c ∧ c ≤ '`') ∨ c = '|' ∨ c = '~'

/-- Exit states of the integer-part loop of `Reader::read_number`
(`src/reader.rs`, lines 68-81): either end of input was reached right
after a digit (the reader returns an `IntegerConstant` immediately, with
the given post-increment position), or the current character is a
separator or `'.'`. -/
inductive WholeExit where
  | eofInt (pos : Nat) (whole : Int) : WholeExit
  | stop (pos : Nat) (whole : Int) : WholeExit
deriving DecidableEq, Repr

/-- The integer-magnitude loop of `Reader::read_number` (`src/reader.rs`,
lines 68-81): accumulate `whole * 10 + digit` (wrapping) until a separator
or `'.'` or end of input.  Every iteration advances the position and the
loop stops (with `EoF` from `current`, at the latest) once the position
passes the end, so fuel `input.length + 1` never runs out; the fuel-0
branch mirrors the `EoF` that `current` would raise. -/
def readWholeLoop (fuel : Nat) (input : List Char) (pos : Nat) (whole : Int) :
    Except ReaderError WholeExit :=
  match fuel with
  | 0 => .error .EoF
  | fuel + 1 =>
    match curr input pos with
    | .error e => .error e
    | .ok c =>
      if isSeparator c || c = '.' then .ok (.stop pos whole)
      else
        let digit : Int := (c.toNat : Int) - 48
        if digit < 0 || 9 < digit then .error (.ExpectedADigit c)
        else
          let whole' := wrap64 (whole * 10 + digit)
          if input.length ≤ pos + 1 then .ok (.eofInt (pos + 1) whole')
          else readWholeLoop fuel input (pos + 1) whole'

/-- Exit state of the fractional loop of `Reader::read_number`
(`src/reader.rs`, lines 88-101): final position, accumulated fractional
digits and power-of-ten multiplier. -/
inductive FracExit where
  | done (pos : Nat) (frac mult : Int) : FracExit
deriving DecidableEq, Repr

/-- The fractional-part loop of `Reader::read_number` (`src/reader.rs`,
lines 88-101); fuelled like `readWholeLoop`. -/
def readFracLoop (fuel : Nat) (input : List Char) (pos : Nat) (frac mult : Int) :
    Except ReaderError FracExit :=
  match fuel with
  | 0 => .error .EoF
  | fuel + 1 =>
    match curr input pos with
    | .error e => .error e
    | .ok c =>
      if isSeparator c then .ok (.done pos frac mult)
      else
        let digit : Int := (c.toNat : Int) - 48
        if digit < 0 || 9 < digit then .error (.ExpectedADigit c)
        else
          let frac' := wrap64 (frac * 10 + digit)
          let mult' := wrap64 (mult * 10)
          if input.length ≤ pos + 1 then .ok (.done (pos + 1) frac' mult')
          else readFracLoop fuel input (pos + 1) frac' mult'

/-- The float assembled at the end of `Reader::read_number`
(`src/reader.rs`, lines 104-109): `sign * (whole + fractional/multiplier)`. -/
def floatOfParts (sign whole frac mult : Int) : Rat :=
  (sign : Rat) * ((whole : Rat) + (frac : Rat) / (mult : Rat))

/-- Body of `Reader::read_number` after the sign has been consumed. -/
def readNumberBody (input : List Char) (pos : Nat) (sign : Int) :
    Except ReaderError (Token × Nat) :=
  match readWholeLoop (input.length + 1) input pos 0 with
  | .error e => .error e
  | .ok (.eofInt p whole) => .ok (.IntegerConstant (wrap64 (sign * whole)), p)
  | .ok (.stop p whole) =>
    match curr input p with
    | .error e => .error e
    | .ok c =>
      if c = '.' then
        match curr input (p + 1) with
        | .error e => .error e
        | .ok _ =>
          match readFracLoop (input.length + 1) input (p + 1) 0 1 with
          | .error e => .error e
          | .ok (.done p' frac mult) =>
            .ok (.FloatConstant (floatOfParts sign whole frac mult), p')
      else .ok (.IntegerConstant (wrap64 (sign * whole)), p)

/-- `Reader::read_number` (`src/reader.rs`, lines 55-113). -/
def readNumber (input : List Char) (pos : Nat) :
    Except ReaderError (Token × Nat) :=
  match curr input pos with
  | .error e => .error e
  | .ok c =>
    if c = '-' then
      match curr input (pos + 1) with
      | .error e => .error e
      | .ok _ => readNumberBody input (pos + 1) (-1)
    else readNumberBody input pos 1

/-- The accumulation loop of `Reader::read_identifier` (`src/reader.rs`,
lines 118-151). -/
def readIdentLoop (fuel : Nat) (input : List Char) (pos : Nat) (acc : List Char) :
    Except ReaderError (Token × Nat) :=
  match fuel with
  | 0 => .error .EoF
  | fuel + 1 =>
    match curr input pos with
    | .error e => .error e
    | .ok c =>
      if legalIdentChar c then
        let acc' := acc ++ [c]
        if input.length ≤ pos + 1 then .ok (.Identifier (String.mk acc'), pos + 1)
        else
          match curr input (pos + 1) with
          | .error e => .error e
          | .ok c' =>
            if isSeparator c' then .ok (.Identifier (String.mk acc'), pos + 1)
            else readIdentLoop fuel input (pos + 1) acc'
      else .error (.UnexpectedCharacter c)

/-- `Reader::read_identifier` (`src/reader.rs`, lines 115-152). -/
def readIdentifier (input : List Char) (pos : Nat) :
    Except ReaderError (Token × Nat) :=
  readIdentLoop (input.length + 1) input pos []

/-- `Reader::skip_separators` (`src/reader.rs`, lines 154-162); fuelled
like `readWholeLoop`. -/
def skipSeparatorsLoop (fuel : Nat) (input : List Char) (pos : Nat) :
    Except ReaderError Nat :=
  match fuel with
  | 0 => .error .EoF
  | fuel + 1 =>
    match curr input pos with
    | .error e => .error e
    | .ok c =>
      if isSeparator c then
        if input.length ≤ pos + 1 then .ok (pos + 1)
        else skipSeparatorsLoop fuel input (pos + 1)
      else .ok pos

/-- `Reader::skip_separators` (`src/reader.rs`, lines 154-162). -/
def skipSeparators (input : List Char) (pos : Nat) :
    Except ReaderError Nat :=
  skipSeparatorsLoop (input.length + 1) input pos

/-- The number-start test of `Reader::tokenise` (`src/reader.rs`, lines
170-172): a decimal digit, or `'-'` immediately followed by one (where
`peek(1)` at end of input propagates `EoF`). -/
def numberStart (input : List Char) (pos : Nat) : Except ReaderError Bool :=
  match curr input pos with
  | .error e => .error e
  | .ok c =>
    if '0' ≤ c ∧ c ≤ '9' then .ok true
    else if c = '-' then
      match peek input pos 1 with
      | .error e => .error e
      | .ok c' => .ok ('0' ≤ c' ∧ c' ≤ '9')
    else .ok false

/-- The scanning loop of `Reader::tokenise` (`src/reader.rs`, lines
164-184).  Each iteration strictly advances the position, so the fuel
`input.length + 1` supplied by `tokenise` can never run out; the fuel-0
branch is unreachable. -/
def tokeniseLoop (fuel : Nat) (input : List Char) (pos : Nat)
    (acc : List Token) : Except ReaderError (List Token) :=
  match fuel with
  | 0 => .error .EoF
  | fuel + 1 =>
    if input.length ≤ pos then .ok acc
    else
      match skipSeparators input pos with
      | .error e => .error e
      | .ok p =>
        match numberStart input p with
        | .error e => .error e
        | .ok isNum =>
          match (if isNum then readNumber input p else readIdentifier input p) with
          | .error e => .error e
          | .ok (tok, p') =>
            let acc' := acc ++ [tok]
            if input.length ≤ p' then tokeniseLoop fuel input p' acc'
            else
              match skipSeparators input p' with
              | .error e => .error e
              | .ok p'' => tokeniseLoop fuel input p'' acc'

/-- `Reader::tokenise` (`src/reader.rs`, lines 164-184). -/
def tokenise (input : List Char) : Except ReaderError (List Token) :=
  tokeniseLoop (input.length + 1) input 0 []

/-! ## The parser (`src/interpreter.rs`) -/

/-- `interpreter::ParserError`. -/
inductive ParserError where
  | ReadingFailed (e : ReaderError) : ParserError
  | ExpectedAnExpression (msg : String) : ParserError
  | ExpectedAnIdentifier (msg : String) : ParserError
  | UnterminatedCompoundExpression : ParserError
  | UnexpectedBrace : ParserError
deriving DecidableEq, Repr

/-- `interpreter::Expression`: the AST produced by the parser. -/
inductive Expression where
  | Constant (value : Object) : Expression
  | Variable (name : String) : Expression
  | Compound (expressions : List Expression) : Expression
  | Set (name : String) (value : Expression) : Expression
  | FunctionCall (implementation : FnImpl) (args : List Expression) : Expression
  | If (condition : Expression) (ifTrue : Expression)
      (otherwise : Option Expression) : Expression

/-- Result of a parsing step: on success the built expression, the
remaining tokens and the (possibly auto-vivified) environment; on failure
the error together with the environment, whose parse-time mutations
persist exactly as they do on the Rust `&mut self`. -/
inductive ParseOut where
  | ok (e : Expression) (rest : List Token) (env : Environment) : ParseOut
  | err (e : ParserError) (env : Environment) : ParseOut

/-- `Bloodbath::expect_keyword` (`src/interpreter.rs`, lines 109-130). -/
def expectKeyword (tokens : List Token) (expected : String) :
    Except ParserError (List Token) :=
  match tokens with
  | [] => .error (.ExpectedAnIdentifier ("Keyword `" ++ expected ++ "`"))
  | t :: rest =>
    match t with
    | .Identifier name =>
      if name = expected then .ok rest
      else .error (.ExpectedAnIdentifier ("Keyword `" ++ expected ++ "`"))
    | _ => .error (.ExpectedAnIdentifier ("Keyword `" ++ expected ++ "`"))

/-- `Bloodbath::check_keyword` (`src/interpreter.rs`, lines 132-145):
whether the head token is the given identifier (consuming it if so). -/
def checkKeyword (tokens : List Token) (expected : String) :
    Bool × List Token :=
  match tokens with
  | .Identifier name :: rest =>
    if name = expected then (true, rest) else (false, tokens)
  | _ => (false, tokens)

/-- `Bloodbath::parse_identity` (`src/interpreter.rs`, lines 195-214): the
next single token is consumed literally, without recursive parsing. -/
def parseIdentity (env : Environment) (tokens : List Token) : ParseOut :=
  match tokens with
  | [] =>
    .err (.ExpectedAnExpression
      "`identity` must be followed by a constant or a variable name") env
  | t :: rest =>
    match t with
    | .Identifier name =>
      if name = "noop" then .ok (.Constant .Noop) rest env
      else .ok (.Variable name) rest env
    | .IntegerConstant v => .ok (.Constant (.Integer v)) rest env
    | .FloatConstant v => .ok (.Constant (.Float v)) rest env
    | .LeftBrace => .err .UnexpectedBrace env
    | .RightBrace => .err .UnexpectedBrace env

/-- Shared usage message of `Bloodbath::parse_set`. -/
def setUsage : String :=
  "`set` must be followed by a variable name and the variable's new value"

mutual

/-- `Bloodbath::parse_expression` (`src/interpreter.rs`, lines 272-286).
The fuel only bounds the recursion depth (it is threaded downwards and
never feeds back into results); every entry point supplies enough of it.
An empty token stream would make the Rust `tokens.remove(0)` panic; that
case is unreachable from `eval` (every caller checks for emptiness first)
and is mapped to an `ExpectedAnExpression` error here, as is fuel
exhaustion. -/
def parseExpression (fuel : Nat) (env : Environment) (tokens : List Token) :
    ParseOut :=
  match fuel with
  | 0 => .err (.ExpectedAnExpression "recursion limit") env
  | fuel + 1 =>
    match tokens with
    | [] => .err (.ExpectedAnExpression "empty token stream") env
    | t :: rest =>
      match t with
      | .Identifier name =>
        if name = "noop" then .ok (.Constant .Noop) rest env
        else if name = "identity" then parseIdentity env rest
        else if name = "set" then parseSet fuel env rest
        else if name = "if" then parseIf fuel env rest
        else parseVariable fuel env name rest
      | .IntegerConstant v => .ok (.Constant (.Integer v)) rest env
      | .FloatConstant v => .ok (.Constant (.Float v)) rest env
      | .LeftBrace => parseCompound fuel env rest
      | .RightBrace => .err .UnexpectedBrace env

/-- `Bloodbath::parse_variable` (`src/interpreter.rs`, lines 147-172): the
arity-directed step.  The name is looked up through the auto-vivifying
`variable_get`; a `Function` binding drives the argument loop, anything
else becomes a `Variable` without consuming tokens. -/
def parseVariable (fuel : Nat) (env : Environment) (name : String)
    (tokens : List Token) : ParseOut :=
  match fuel with
  | 0 => .err (.ExpectedAnExpression "recursion limit") env
  | fuel + 1 =>
    match variableGet env name with
    | (value, env') =>
      match value with
      | .Function n impl => parseArgs fuel env' name n impl 0 tokens []
      | _ => .ok (.Variable name) tokens env'

/-- The `for count in 0..argument_count` loop of `Bloodbath::parse_variable`
(`src/interpreter.rs`, lines 155-166). -/
def parseArgs (fuel : Nat) (env : Environment) (name : String) (n : Nat)
    (impl : FnImpl) (count : Nat) (tokens : List Token)
    (acc : List Expression) : ParseOut :=
  match fuel with
  | 0 => .err (.ExpectedAnExpression "recursion limit") env
  | fuel + 1 =>
    if count < n then
      match tokens with
      | [] =>
        .err (.ExpectedAnExpression
          ("Expected " ++ toString n ++ " arguments after `" ++ name ++
            "`, got " ++ toString count)) env
      | _ =>
        match parseExpression fuel env tokens with
        | .err e env' => .err e env'
        | .ok e rest env' =>
          parseArgs fuel env' name n impl (count + 1) rest (acc ++ [e])
    else .ok (.FunctionCall impl acc) tokens env

/-- `Bloodbath::parse_set` (`src/interpreter.rs`, lines 216-236). -/
def parseSet (fuel : Nat) (env : Environment) (tokens : List Token) :
    ParseOut :=
  match fuel with
  | 0 => .err (.ExpectedAnExpression "recursion limit") env
  | fuel + 1 =>
    match tokens with
    | [] => .err (.ExpectedAnIdentifier setUsage) env
    | t :: rest =>
      match t with
      | .Identifier name =>
        match rest with
        | [] => .err (.ExpectedAnExpression setUsage) env
        | _ =>
          match parseExpression fuel env rest with
          | .err e env' => .err e env'
          | .ok v rest' env' => .ok (.Set name v) rest' env'
      | _ => .err (.ExpectedAnIdentifier setUsage) env

/-- `Bloodbath::parse_if` (`src/interpreter.rs`, lines 238-270). -/
def parseIf (fuel : Nat) (env : Environment) (tokens : List Token) :
    ParseOut :=
  match fuel with
  | 0 => .err (.ExpectedAnExpression "recursion limit") env
  | fuel + 1 =>
  match tokens with
  | [] => .err (.ExpectedAnExpression "`if` must be followed by a condition") env
  | _ =>
    match parseExpression fuel env tokens with
    | .err e env' => .err e env'
    | .ok cond rest env' =>
      match expectKeyword rest "then" with
      | .error e => .err e env'
      | .ok rest' =>
        match rest' with
        | [] =>
          .err (.ExpectedAnExpression
            "`then` must be followed by an expression") env'
        | _ =>
          match parseExpression fuel env' rest' with
          | .err e env'' => .err e env''
          | .ok thenBranch rest'' env'' =>
            match checkKeyword rest'' "else" with
            | (true, rest3) =>
              match rest3 with
              | [] =>
                .err (.ExpectedAnExpression
                  "`else` must be followed by an expression") env''
              | _ =>
                match parseExpression fuel env'' rest3 with
                | .err e env3 => .err e env3
                | .ok elseBranch rest4 env3 =>
                  .ok (.If cond thenBranch (some elseBranch)) rest4 env3
            | (false, rest3) => .ok (.If cond thenBranch none) rest3 env''

/-- `Bloodbath::parse_compound` (`src/interpreter.rs`, lines 174-193):
entry emptiness check, then the accumulation loop. -/
def parseCompound (fuel : Nat) (env : Environment) (tokens : List Token) :
    ParseOut :=
  match fuel with
  | 0 => .err (.ExpectedAnExpression "recursion limit") env
  | fuel + 1 =>
    match tokens with
    | [] => .err .UnterminatedCompoundExpression env
    | _ => parseCompoundLoop fuel env tokens []

/-- The loop of `Bloodbath::parse_compound` (`src/interpreter.rs`, lines
181-192). -/
def parseCompoundLoop (fuel : Nat) (env : Environment) (tokens : List Token)
    (acc : List Expression) : ParseOut :=
  match fuel with
  | 0 => .err .UnterminatedCompoundExpression env
  | fuel + 1 =>
    match tokens with
    | .RightBrace :: rest => .ok (.Compound acc) rest env
    | _ =>
      match parseExpression fuel env tokens with
      | .err e env' => .err e env'
      | .ok e rest env' =>
        match rest with
        | [] => .err .UnterminatedCompoundExpression env'
        | _ => parseCompoundLoop fuel env' rest (acc ++ [e])

end

/-! ## Evaluation (`Expression::evaluate`, `src/interpreter.rs`, lines 18-50) -/

mutual

/-- `Expression::evaluate` (`src/interpreter.rs`, lines 19-49): tree
reduction against the mutable environment.  `none` models a host panic
raised by a builtin (see `divFn`); the fuel only bounds the recursion
depth of the tree walk, and `sizeOf` of the expression (supplied by
`evalLoop`) always suffices since every recursive call strictly descends
into a subterm.  Fuel exhaustion is mapped to `none` and is unreachable
with that supply. -/
def evaluate (fuel : Nat) : Expression → Environment →
    Option (Object × Environment) :=
  match fuel with
  | 0 => fun _ _ => none
  | fuel + 1 => fun e env =>
    match e, env with
    | .Constant v, env => some (v, env)
    | .Variable name, env => some (variableGet env name)
    | .Compound es, env => evalSeq fuel es .Noop env
    | .Set name e, env =>
      match evaluate fuel e env with
      | none => none
      | some (v, env') => some (v, variableSet env' name v)
    | .FunctionCall impl args, env =>
      match evalArgs fuel args env with
      | none => none
      | some (vs, env') =>
        match impl.call vs with
        | none => none
        | some v => some (v, env')
    | .If c t e?, env =>
      match evaluate fuel c env with
      | none => none
      | some (v, env') =>
        match v with
        | .Noop =>
          match e? with
          | some e => evaluate fuel e env'
          | none => some (.Noop, env')
        | _ => evaluate fuel t env'

/-- The `Compound` loop: evaluate children in order, keeping the last
value (`src/interpreter.rs`, lines 23-31). -/
def evalSeq (fuel : Nat) : List Expression → Object → Environment →
    Option (Object × Environment) :=
  match fuel with
  | 0 => fun _ _ _ => none
  | fuel + 1 => fun es result env =>
    match es with
    | [] => some (result, env)
    | e :: es =>
      match evaluate fuel e env with
      | none => none
      | some (v, env') => evalSeq fuel es v env'

/-- Left-to-right evaluation of call arguments (`src/interpreter.rs`,
line 38). -/
def evalArgs (fuel : Nat) : List Expression → Environment →
    Option (List Object × Environment) :=
  match fuel with
  | 0 => fun _ _ => none
  | fuel + 1 => fun es env =>
    match es with
    | [] => some ([], env)
    | e :: es =>
      match evaluate fuel e env with
      | none => none
      | some (v, env') =>
        match evalArgs fuel es env' with
        | none => none
        | some (vs, env'') => some (v :: vs, env'')

end

mutual

/-- Size of an expression tree: an upper bound on the recursion depth of
`evaluate`, used as its fuel supply. -/
def exprSize : Expression → Nat
  | .Constant _ => 1
  | .Variable _ => 1
  | .Compound es => 1 + exprListSize es
  | .Set _ e => 1 + exprSize e
  | .FunctionCall _ args => 1 + exprListSize args
  | .If c t e? => 1 + exprSize c + exprSize t + exprOptSize e?

/-- Size of a list of expressions. -/
def exprListSize : List Expression → Nat
  | [] => 1
  | e :: es => 1 + exprSize e + exprListSize es

/-- Size of an optional expression. -/
def exprOptSize : Option Expression → Nat
  | none => 1
  | some e => 1 + exprSize e

end

/-- Line-evaluation outcome of `Bloodbath::eval`: the final value, a
surfaced error (each with the final environment), or a host panic. -/
inductive EvalOutcome where
  | ok (result : Object) (env : Environment) : EvalOutcome
  | err (error : ParserError) (env : Environment) : EvalOutcome
  | trap : EvalOutcome

/-- The `while !tokens.is_empty()` loop of `Bloodbath::eval`
(`src/interpreter.rs`, lines 300-305): parse one top-level expression,
evaluate it, keep the last value.  Each iteration consumes at least one
token, so the fuel `tokens.length + 1` supplied by `eval` never runs out;
the parser depth bound `3 * |tokens| + 3` likewise suffices for every
token stream. -/
def evalLoop (fuel : Nat) (env : Environment) (tokens : List Token)
    (result : Object) : EvalOutcome :=
  match fuel with
  | 0 => .trap
  | fuel + 1 =>
    match tokens with
    | [] => .ok result env
    | _ =>
      match parseExpression (3 * tokens.length + 3) env tokens with
      | .err e env' => .err e env'
      | .ok e rest env' =>
        match evaluate (exprSize e) e env' with
        | none => .trap
        | some (v, env'') => evalLoop fuel env'' rest v

/-- `Bloodbath::eval` (`src/interpreter.rs`, lines 293-307): tokenise the
whole line first (a lexer failure is wrapped in `ReadingFailed` and
nothing is evaluated), then repeatedly parse-and-evaluate until the
tokens are exhausted, starting from `Noop`. -/
def eval (env : Environment) (input : String) : EvalOutcome :=
  match tokenise input.data with
  | .error e => .err (.ReadingFailed e) env
  | .ok tokens => evalLoop (tokens.length + 1) env tokens .Noop

/-! ## The decimal rendering of an `i64` (for the literal round-trip)

`str(n)` in the round-trip claim is the standard decimal rendering of a
64-bit signed integer (Rust's `i64: Display`): an optional leading `'-'`
followed by the base-10 digits of the magnitude, most significant first,
without leading zeros. -/

/-- The character of a decimal digit. -/
def digitChar : Nat → Char
  | 0 => '0'
  | 1 => '1'
  | 2 => '2'
  | 3 => '3'
  | 4 => '4'
  | 5 => '5'
  | 6 => '6'
  | 7 => '7'
  | 8 => '8'
  | _ => '9'

/-- Base-10 digits of a natural number, most significant first
(`[0]` for zero). -/
def natDigits (m : Nat) : List Nat :=
  if m = 0 then [0] else (Nat.digits 10 m).reverse

/-- The decimal rendering of an `i64` value (Rust's `i64: Display`). -/
def render (n : Int) : List Char :=
  if n < 0 then '-' :: (natDigits n.natAbs).map digitChar
  else (natDigits n.toNat).map digitChar

/-- The accumulator of the integer-magnitude loop, as the reader computes
it: most-significant-first digit fold with 64-bit wraparound at each
step. -/
def wfold (w : Int) (ds : List Nat) : Int :=
  ds.foldl (fun (a : Int) (d : Nat) => wrap64 (a * 10 + (d : Int))) w

/-- The same fold without wraparound: the mathematical value of the digit
string. -/
def pfold (w : Int) (ds : List Nat) : Int :=
  ds.foldl (fun (a : Int) (d : Nat) => a * 10 + (d : Int)) w

/-! ## Environment lemmas -/

theorem envLookup_erase (env : Environment) (name m : String) (h : m ≠ name) :
    envLookup (envErase env name) m = envLookup env m := by
  induction env with
  | nil => rfl
  | cons p rest ih =>
    obtain ⟨k, v⟩ := p
    by_cases hk : k = name
    · simp only [envErase, if_pos hk, ih, envLookup]
      rw [if_neg (by rw [hk]; exact fun hkm => h hkm.symm)]
    · simp only [envErase, if_neg hk, envLookup]
      by_cases hkm : k = m
      · simp [hkm]
      · simp [hkm, ih]

theorem envLookup_set_self (env : Environment) (name : String) (v : Object) :
    envLookup (variableSet env name v) name = some v := by
  simp [variableSet, envLookup]

theorem envLookup_set_other (env : Environment) (name m : String) (v : Object)
    (h : m ≠ name) :
    envLookup (variableSet env name v) m = envLookup env m := by
  simp only [variableSet, envLookup]
  rw [if_neg (fun hnm => h hnm.symm), envLookup_erase env name m h]

/-- C6 — Environment reads never fail and auto-vivify: a bound name is
returned unchanged with no environment mutation; an unbound name is bound
to `Noop` and `Noop` is returned; after any read the name is bound; and a
second read of a previously-unset name again yields `Noop` with no
further change (idempotence).  No error outcome exists: `variable_get` is
total. -/
theorem C6_env_get_auto_vivifies (env : Environment) (name : String) :
    (∀ v, envLookup env name = some v → variableGet env name = (v, env)) ∧
    (envLookup env name = none →
      variableGet env name = (.Noop, variableSet env name .Noop) ∧
      envLookup (variableSet env name .Noop) name = some .Noop ∧
      variableGet (variableSet env name .Noop) name =
        (.Noop, variableSet env name .Noop)) ∧
    envLookup (variableGet env name).2 name ≠ none := by
  refine ⟨?_, ?_, ?_⟩
  · intro v h
    simp [variableGet, h]
  · intro h
    refine ⟨by simp [variableGet, h], envLookup_set_self env name .Noop, ?_⟩
    simp [variableGet, envLookup_set_self]
  · rcases h : envLookup env name with _ | v
    · simp [variableGet, h, envLookup_set_self]
    · simp [variableGet, h]

/-- Witness for C6 at the concrete never-set name `"quux"` in the empty
environment: the first and second reads both return `Noop`. -/
theorem C6_env_get_auto_vivifies_witness :
    variableGet ([] : Environment) "quux" =
      (.Noop, variableSet [] "quux" .Noop) ∧
    variableGet (variableSet ([] : Environment) "quux" .Noop) "quux" =
      (.Noop, variableSet [] "quux" .Noop) := by
  have h := (C6_env_get_auto_vivifies [] "quux").2.1 rfl
  exact ⟨h.1, h.2.2⟩

/-- C4 — `Noop` (or any `Function` value) is absorbing for all four
builtin arithmetic operations, on either side, and never raises an
error: the call returns `some Noop` (it does not trap). -/
theorem C4_noop_absorbing (f : FnImpl) (x v : Object)
    (h : v = .Noop ∨ ∃ n i, v = .Function n i) :
    f.call [v, x] = some .Noop ∧ f.call [x, v] = some .Noop := by
  rcases h with h | ⟨n, i, h⟩ <;> subst h <;> cases f <;>
    refine ⟨?_, ?_⟩ <;> cases x <;>
      simp [FnImpl.call, addFn, subFn, mulFn, divFn, argAt, getInteger, getFloat]

/-- Witness for C4: `add(Noop, Integer 5) = Noop` and
`add(Integer 5, Noop) = Noop`. -/
theorem C4_noop_absorbing_witness :
    FnImpl.add.call [.Noop, .Integer 5] = some .Noop ∧
    FnImpl.add.call [.Integer 5, .Noop] = some .Noop :=
  C4_noop_absorbing .add (.Integer 5) .Noop (.inl rfl)

/-- C10 — integer division by zero is unguarded: for every integer `a`,
`div(Integer a, Integer 0)` reaches the remainder computation `a % 0`,
which traps in the host (`none`) before any quotient is formed; no
`Value` is returned. -/
theorem C10_div_by_zero_traps (a : Int) :
    FnImpl.div.call [.Integer a, .Integer 0] = none := by
  simp [FnImpl.call, divFn, argAt, getInteger]

/-- C8 — lexing happens entirely before any parsing or evaluation: if
tokenisation of the line fails, `eval` returns the lexer error wrapped in
`ReadingFailed` and the environment is returned exactly as it was. -/
theorem C8_lex_error_aborts_line (env : Environment) (input : String)
    (e : ReaderError) (h : tokenise input.data = .error e) :
    eval env input = .err (.ReadingFailed e) env := by
  unfold eval
  rw [h]

/-- Witness for C8 at the lexically-invalid line `"1x"`: the reader fails
with `ExpectedADigit 'x'` mid-number, so nothing of the line is parsed or
evaluated, and the default environment is returned untouched. -/
theorem C8_lex_error_aborts_line_witness :
    tokenise "1x".data = .error (.ExpectedADigit 'x') ∧
    eval defaultEnv "1x" = .err (.ReadingFailed (.ExpectedADigit 'x')) defaultEnv :=
  ⟨by rfl, C8_lex_error_aborts_line defaultEnv "1x" (.ExpectedADigit 'x') (by rfl)⟩

/-- C3 — compound expressions do NOT work end to end in this code: the
lexer of `src/reader.rs` has no brace handling at all.  `'{'` (code 123)
and `'}'` (code 125) lie in none of the legal identifier ranges and
match no lexer special case, so tokenising `"{1 2 3}"` or `"{}"` fails
with `UnexpectedCharacter('{')` and `eval` surfaces `ReadingFailed`;
`Token` in `src/reader.rs` does not even declare the
`LeftBrace`/`RightBrace` variants that the parser matches on.  The last
two conjuncts show the parser/evaluator side behaves exactly as claimed
when handed brace tokens directly — tokens the shipped lexer can never
produce — pinpointing the divergence in the lexer. -/
theorem C3_braces_rejected_by_lexer :
    tokenise "{1 2 3}".data = .error (.UnexpectedCharacter '{') ∧
    tokenise "{}".data = .error (.UnexpectedCharacter '{') ∧
    eval defaultEnv "{1 2 3}" =
      .err (.ReadingFailed (.UnexpectedCharacter '{')) defaultEnv ∧
    eval defaultEnv "{}" =
      .err (.ReadingFailed (.UnexpectedCharacter '{')) defaultEnv ∧
    evalLoop 6 defaultEnv
      [.LeftBrace, .IntegerConstant 1, .IntegerConstant 2, .IntegerConstant 3,
        .RightBrace] .Noop = .ok (.Integer 3) defaultEnv ∧
    evalLoop 2 defaultEnv [.LeftBrace, .RightBrace] .Noop =
      .ok .Noop defaultEnv :=
  ⟨by rfl, by rfl, by rfl, by rfl, by rfl, by rfl⟩

/-- C9 — parsing alone mutates the environment.  `"+ y"` fails to parse
(the second argument of `+` is missing), no `set` occurs anywhere in the
line, and yet the returned environment differs from the initial one: the
arity lookup of the never-bound `y` auto-vivified it to `Noop` during
parsing.  Moreover in `"if 1 then 2 else z"` the never-evaluated
else-branch identifier `z` is bound to `Noop` purely by parsing. -/
theorem C9_parsing_mutates_environment :
    envLookup defaultEnv "y" = none ∧
    eval defaultEnv "+ y" =
      .err (.ExpectedAnExpression "Expected 2 arguments after `+`, got 1")
        (variableSet defaultEnv "y" .Noop) ∧
    envLookup (variableSet defaultEnv "y" .Noop) "y" = some .Noop ∧
    variableSet defaultEnv "y" .Noop ≠ defaultEnv ∧
    envLookup defaultEnv "z" = none ∧
    eval defaultEnv "if 1 then 2 else z" =
      .ok (.Integer 2) (variableSet defaultEnv "z" .Noop) :=
  ⟨by rfl, by rfl, by rfl, by decide, by rfl, by rfl⟩

/-- C2 — `If` branches solely on whether the condition's value is `Noop`:
any non-`Noop` value (including `Integer 0` and `Float 0`) selects the
then-branch, `Noop` selects the else-branch or yields `Noop` when none
was given; concretely `eval "if 0 then 1 else 2" = Integer 1` and
`eval "if noop then 1 else 2" = Integer 2`. -/
theorem evaluate_If_def (fuel : Nat) (c t : Expression)
    (e? : Option Expression) (env : Environment) :
    evaluate (fuel + 1) (.If c t e?) env =
      (match evaluate fuel c env with
       | none => none
       | some (v, env') =>
         match v with
         | .Noop =>
           match e? with
           | some e => evaluate fuel e env'
           | none => some (.Noop, env')
         | _ => evaluate fuel t env') := rfl

theorem C2_if_branches_on_noop :
    (∀ (fuel : Nat) (c t : Expression) (e? : Option Expression)
       (env env' : Environment) (v : Object),
      evaluate fuel c env = some (v, env') →
      (v ≠ .Noop →
        evaluate (fuel + 1) (.If c t e?) env = evaluate fuel t env') ∧
      (v = .Noop → evaluate (fuel + 1) (.If c t e?) env =
        (match e? with
         | some e => evaluate fuel e env'
         | none => some (.Noop, env')))) ∧
    eval defaultEnv "if 0 then 1 else 2" = .ok (.Integer 1) defaultEnv ∧
    eval defaultEnv "if noop then 1 else 2" = .ok (.Integer 2) defaultEnv := by
  refine ⟨?_, by rfl, by rfl⟩
  intro fuel c t e? env env' v h
  constructor
  · intro hv
    rw [evaluate_If_def, h]
    cases v with
    | Noop => exact absurd rfl hv
    | Integer a => rfl
    | Float q => rfl
    | Function n i => rfl
  · intro hv
    subst hv
    rw [evaluate_If_def, h]

/-- Witness for C2: an `Integer 0` condition selects the then-branch, a
`Noop` condition the else-branch. -/
theorem C2_if_branches_on_noop_witness :
    evaluate 2 (.If (.Constant (.Integer 0)) (.Constant (.Integer 1))
      (some (.Constant (.Integer 2)))) [] =
        evaluate 1 (.Constant (.Integer 1)) [] ∧
    evaluate 2 (.If (.Constant .Noop) (.Constant (.Integer 1))
      (some (.Constant (.Integer 2)))) [] =
        evaluate 1 (.Constant (.Integer 2)) [] := by
  constructor
  · exact (C2_if_branches_on_noop.1 1 _ _ _ _ _ _ (by rfl)).1 (by simp)
  · exact (C2_if_branches_on_noop.1 1 _ _ _ _ _ _ (by rfl)).2 rfl

/-- One-step definitional unfolding of `parseArgs` at positive fuel. -/
theorem parseArgs_succ_def (fuel : Nat) (env : Environment) (name : String)
    (n : Nat) (impl : FnImpl) (count : Nat) (tokens : List Token)
    (acc : List Expression) :
    parseArgs (fuel + 1) env name n impl count tokens acc =
      (if count < n then
        match tokens with
        | [] => .err (.ExpectedAnExpression
            ("Expected " ++ toString n ++ " arguments after `" ++ name ++
              "`, got " ++ toString count)) env
        | _ =>
          match parseExpression fuel env tokens with
          | .err e env' => .err e env'
          | .ok e rest env' =>
            parseArgs fuel env' name n impl (count + 1) rest (acc ++ [e])
       else .ok (.FunctionCall impl acc) tokens env) := rfl

/-- One-step definitional unfolding of `parseVariable` at positive fuel. -/
theorem parseVariable_succ_def (fuel : Nat) (env : Environment)
    (name : String) (tokens : List Token) :
    parseVariable (fuel + 1) env name tokens =
      (match variableGet env name with
       | (value, env') =>
         match value with
         | .Function n impl => parseArgs fuel env' name n impl 0 tokens []
         | _ => .ok (.Variable name) tokens env') := rfl

/-- The argument loop of `parse_variable` only succeeds with a
`FunctionCall` carrying exactly `argument_count` arguments: the loop
invariant is `acc.length = count ≤ n`. -/
theorem parseArgs_ok_length :
    ∀ (fuel : Nat) (env : Environment) (name : String) (n : Nat)
      (impl : FnImpl) (count : Nat) (tokens : List Token)
      (acc : List Expression) (e : Expression) (rest : List Token)
      (env'' : Environment), count ≤ n → acc.length = count →
      parseArgs fuel env name n impl count tokens acc = .ok e rest env'' →
      ∃ args, e = .FunctionCall impl args ∧ args.length = n := by
  intro fuel
  induction fuel with
  | zero =>
    intro env name n impl count tokens acc e rest env'' _ _ h
    exact ParseOut.noConfusion h
  | succ fuel ih =>
    intro env name n impl count tokens acc e rest env'' hcn hlen h
    rw [parseArgs_succ_def] at h
    by_cases hc : count < n
    · rw [if_pos hc] at h
      cases tokens with
      | nil => exact ParseOut.noConfusion h
      | cons t ts =>
        cases hp : parseExpression fuel env (t :: ts) with
        | err pe penv =>
          rw [hp] at h
          exact ParseOut.noConfusion h
        | ok e' rest' env' =>
          rw [hp] at h
          exact ih env' name n impl (count + 1) rest' (acc ++ [e']) e rest env''
            hc (by simp [hlen]) h
    · rw [if_neg hc] at h
      injection h with h1 h2 h3
      exact ⟨acc, h1.symm, by omega⟩

/-- C1 — parsing is arity-directed by the live environment: a non-keyword
identifier is looked up first; a non-`Function` binding consumes no
further tokens and yields `Variable(name)`; a `Function` binding with
arity `n` makes any successful parse a `Call` with exactly `n` fully-built
arguments; an empty remainder with `n > 0` pending arguments fails with
`ExpectedAnExpression`.  Consequently rebinding a name changes how many
tokens its later uses consume: with the default `+` (arity 2) the
stream `+ 1 2` is one call consuming both literals, after rebinding `+`
to an arity-1 function only one literal is consumed, and after `set`-ting
`+` to the non-function `30` a use of `+` consumes nothing (so
`"+ 1 2"` evaluates the three expressions separately, yielding `2`). -/
theorem C1_arity_directed_parsing :
    (∀ (fuel : Nat) (env : Environment) (name : String) (tokens : List Token),
      (∀ n impl, (variableGet env name).1 ≠ .Function n impl) →
      parseVariable (fuel + 1) env name tokens =
        .ok (.Variable name) tokens (variableGet env name).2) ∧
    (∀ (fuel : Nat) (env : Environment) (name : String) (tokens : List Token)
       (n : Nat) (impl : FnImpl) (e : Expression) (rest : List Token)
       (env'' : Environment),
      (variableGet env name).1 = .Function n impl →
      parseVariable fuel env name tokens = .ok e rest env'' →
      ∃ args, e = .FunctionCall impl args ∧ args.length = n) ∧
    (∀ (fuel : Nat) (env : Environment) (name : String) (n : Nat)
       (impl : FnImpl),
      (variableGet env name).1 = .Function n impl → 0 < n →
      parseVariable (fuel + 2) env name [] =
        .err (.ExpectedAnExpression
          ("Expected " ++ toString n ++ " arguments after `" ++ name ++
            "`, got " ++ toString 0)) (variableGet env name).2) ∧
    parseExpression 9 defaultEnv
        [.Identifier "+", .IntegerConstant 1, .IntegerConstant 2] =
      .ok (.FunctionCall .add [.Constant (.Integer 1), .Constant (.Integer 2)])
        [] defaultEnv ∧
    parseExpression 9 (variableSet defaultEnv "+" (.Function 1 .sub))
        [.Identifier "+", .IntegerConstant 1, .IntegerConstant 2] =
      .ok (.FunctionCall .sub [.Constant (.Integer 1)]) [.IntegerConstant 2]
        (variableSet defaultEnv "+" (.Function 1 .sub)) ∧
    eval (variableSet defaultEnv "+" (.Integer 30)) "+ 1 2" =
      .ok (.Integer 2) (variableSet defaultEnv "+" (.Integer 30)) := by
  refine ⟨?_, ?_, ?_, by rfl, by rfl, by rfl⟩
  · intro fuel env name tokens hnf
    rw [parseVariable_succ_def]
    rcases hv : variableGet env name with ⟨v, env'⟩
    rw [hv] at hnf
    cases v with
    | Function n impl => exact absurd rfl (hnf n impl)
    | Noop => rfl
    | Integer a => rfl
    | Float q => rfl
  · intro fuel env name tokens n impl e rest env'' hf hp
    cases fuel with
    | zero => exact ParseOut.noConfusion hp
    | succ fuel =>
      rw [parseVariable_succ_def] at hp
      rcases hv : variableGet env name with ⟨v, env'⟩
      rw [hv] at hp hf
      have hf' : v = .Function n impl := hf
      subst hf'
      exact parseArgs_ok_length fuel env' name n impl 0 tokens [] e rest env''
        (Nat.zero_le n) rfl hp
  · intro fuel env name n impl hf hn
    rw [parseVariable_succ_def]
    rcases hv : variableGet env name with ⟨v, env'⟩
    rw [hv] at hf
    have hf' : v = .Function n impl := hf
    subst hf'
    have hres : parseArgs (fuel + 1) env' name n impl 0 [] [] =
        .err (.ExpectedAnExpression
          ("Expected " ++ toString n ++ " arguments after `" ++ name ++
            "`, got " ++ toString 0)) env' := by
      rw [parseArgs_succ_def, if_pos hn]
    exact hres

/-- Witness for C1 at `+` in the default environment: `+` is bound to an
arity-2 function and the token stream is empty, so parsing fails asking
for the 2 arguments. -/
theorem C1_arity_directed_parsing_witness :
    parseVariable 2 defaultEnv "+" [] =
      .err (.ExpectedAnExpression
        ("Expected " ++ toString 2 ++ " arguments after `" ++ "+" ++
          "`, got " ++ toString 0)) (variableGet defaultEnv "+").2 :=
  C1_arity_directed_parsing.2.2.1 0 defaultEnv "+" 2 .add (by rfl) (by norm_num)

/-- Counterexample to C5 as stated: at `a = i64::MIN`, `b = -1` (with
`b ≠ 0`), the claim demands `Integer(a/b)`, but the Rust remainder
`a % b` overflows (the mathematical quotient `2^63` is not representable
in `i64`) and panics in every build profile, so `div` returns no value at
all. -/
theorem C5_div_min_neg_one_traps :
    FnImpl.div.call [.Integer (-(2 ^ 63)), .Integer (-1)] = none := by
  simp only [FnImpl.call, divFn, argAt, getInteger]
  rw [if_pos]
  exact Or.inr ⟨by norm_num [i64Min], by norm_num⟩

/-- C5 (amended) — division coercion for all `i64` pairs except the
overflowing `(i64::MIN, -1)`: with `b ≠ 0`, two integers yield
`Integer(a/b)` when `b` divides `a` and the float quotient otherwise, and
any mixed integer/float pair yields the float quotient.  In particular
`div(6, 3) = Integer 2` and `div(7, 2) = Float 3.5`. -/
theorem C5_division_coercion :
    (∀ a b : Int, i64Min ≤ a → a < 2 ^ 63 → i64Min ≤ b → b < 2 ^ 63 →
      b ≠ 0 → ¬(a = i64Min ∧ b = -1) →
      FnImpl.div.call [.Integer a, .Integer b] =
        some (if b ∣ a then .Integer (a / b)
          else .Float ((a : Rat) / (b : Rat)))) ∧
    (∀ (a : Int) (q : Rat),
      FnImpl.div.call [.Integer a, .Float q] = some (.Float ((a : Rat) / q))) ∧
    (∀ (a : Int) (q : Rat),
      FnImpl.div.call [.Float q, .Integer a] = some (.Float (q / (a : Rat)))) ∧
    (∀ p q : Rat,
      FnImpl.div.call [.Float p, .Float q] = some (.Float (p / q))) ∧
    FnImpl.div.call [.Integer 6, .Integer 3] = some (.Integer 2) ∧
    (∃ q : Rat, FnImpl.div.call [.Integer 7, .Integer 2] = some (.Float q) ∧
      q = 3.5) := by
  refine ⟨?_, ?_, ?_, ?_, by rfl, ?_⟩
  · intro a b _ _ _ _ hb hmin
    have hcond : ¬(b = 0 ∨ (a = i64Min ∧ b = -1)) := by
      rintro (h | h)
      · exact hb h
      · exact hmin h
    simp only [FnImpl.call, divFn, argAt, getInteger, if_neg hcond]
    by_cases hdvd : b ∣ a
    · have htm : a.tmod b = 0 := Int.tmod_eq_zero_of_dvd hdvd
      rw [if_pos htm, if_pos hdvd]
      obtain ⟨c, rfl⟩ := hdvd
      rw [Int.mul_tdiv_cancel_left c hb, Int.mul_ediv_cancel_left c hb]
    · have htm : a.tmod b ≠ 0 := fun h => hdvd (Int.dvd_of_tmod_eq_zero h)
      rw [if_neg htm, if_neg hdvd]
  · intro a q
    rfl
  · intro a q
    rfl
  · intro p q
    rfl
  · refine ⟨((7 : Int) : Rat) / ((2 : Int) : Rat), by rfl, ?_⟩
    norm_num

/-- Witness for the amended C5 at `(7, 2)`: `2` does not divide `7`, so
the float quotient is produced. -/
theorem C5_division_coercion_witness :
    FnImpl.div.call [.Integer 7, .Integer 2] =
      some (if (2 : Int) ∣ 7 then .Integer (7 / 2)
        else .Float (((7 : Int) : Rat) / ((2 : Int) : Rat))) :=
  C5_division_coercion.1 7 2 (by norm_num [i64Min]) (by norm_num)
    (by norm_num [i64Min]) (by norm_num) (by norm_num)
    (by norm_num [i64Min])

/-! ## Lemmas for the integer-literal round trip (C7) -/

theorem digitChar_spec (d : Nat) (hd : d < 10) :
    (digitChar d).toNat = 48 + d ∧ isSeparator (digitChar d) = false ∧
    digitChar d ≠ '.' ∧ digitChar d ≠ '-' ∧
    '0' ≤ digitChar d ∧ digitChar d ≤ '9' := by
  interval_cases d <;>
    exact ⟨by decide, by decide, by decide, by decide, by decide, by decide⟩

theorem listNth_append_cons (pre : List Char) (c : Char) (t : List Char) :
    listNth (pre ++ c :: t) pre.length = some c := by
  induction pre with
  | nil => rfl
  | cons a p ih => simpa [listNth] using ih

theorem curr_append_cons (pre : List Char) (c : Char) (t : List Char) :
    curr (pre ++ c :: t) pre.length = .ok c := by
  unfold curr peek
  rw [Nat.add_zero, listNth_append_cons]

theorem wrap64_eq_self (x : Int) (h1 : -(2 ^ 63) ≤ x) (h2 : x < 2 ^ 63) :
    wrap64 x = x := by
  unfold wrap64
  have h3 : (x + 2 ^ 63) % 2 ^ 64 = x + 2 ^ 63 :=
    Int.emod_eq_of_lt (by omega) (by omega)
  omega

theorem wrap64_pow63 : wrap64 (2 ^ 63) = -(2 ^ 63) := by
  unfold wrap64
  norm_num

theorem pfold_nonneg (ds : List Nat) : ∀ w : Int, 0 ≤ w → 0 ≤ pfold w ds := by
  induction ds with
  | nil => intro w hw; exact hw
  | cons d t ih =>
    intro w hw
    have : (0 : Int) ≤ w * 10 + d := by positivity
    exact ih _ this

theorem pfold_ge_self (ds : List Nat) : ∀ w : Int, 0 ≤ w → w ≤ pfold w ds := by
  induction ds with
  | nil => intro w _; exact le_refl w
  | cons d t ih =>
    intro w hw
    have h1 : w ≤ w * 10 + (d : Int) := by
      have : (0 : Int) ≤ d := Int.natCast_nonneg d
      nlinarith
    exact le_trans h1 (ih _ (by positivity))

theorem pfold_ge_ten (ds : List Nat) (w : Int) (hne : ds ≠ []) (hw : 0 ≤ w) :
    10 * w ≤ pfold w ds := by
  cases ds with
  | nil => exact absurd rfl hne
  | cons d t =>
    have h1 : 10 * w ≤ w * 10 + (d : Int) := by
      have : (0 : Int) ≤ d := Int.natCast_nonneg d
      nlinarith
    exact le_trans h1 (pfold_ge_self t _ (by positivity))

theorem wfold_eq_wrap_pfold :
    ∀ (ds : List Nat) (w : Int), ds ≠ [] → 0 ≤ w → pfold w ds ≤ 2 ^ 63 →
      wfold w ds = wrap64 (pfold w ds) := by
  intro ds
  induction ds with
  | nil => intro w h; exact absurd rfl h
  | cons d t ih =>
    intro w _ hw hle
    cases t with
    | nil => rfl
    | cons e tt =>
      have hv0 : (0 : Int) ≤ w * 10 + d := by positivity
      have hple : pfold (w * 10 + d) (e :: tt) ≤ 2 ^ 63 := hle
      have hvlt : w * 10 + (d : Int) < 2 ^ 63 := by
        by_contra hcon
        push_neg at hcon
        have := pfold_ge_ten (e :: tt) (w * 10 + d) (by simp) hv0
        omega
      have hwrap : wrap64 (w * 10 + d) = w * 10 + d :=
        wrap64_eq_self _ (by omega) hvlt
      show wfold (wrap64 (w * 10 + d)) (e :: tt) = _
      rw [hwrap]
      exact ih (w * 10 + d) (by simp) hv0 hple

theorem pfold_reverse (L : List Nat) (w : Int) :
    pfold w L.reverse = w * 10 ^ L.length + (Nat.ofDigits 10 L : Int) := by
  induction L generalizing w with
  | nil =>
    show w = w * 10 ^ 0 + Nat.ofDigits 10 []
    simp [Nat.ofDigits]
  | cons d t ih =>
    rw [List.reverse_cons]
    unfold pfold
    rw [List.foldl_append]
    have hrev : List.foldl (fun (a : Int) (d : Nat) => a * 10 + (d : Int))
        w t.reverse = w * 10 ^ t.length + (Nat.ofDigits 10 t : Int) := ih w
    rw [hrev]
    simp only [List.foldl_cons, List.foldl_nil, List.length_cons,
      Nat.ofDigits]
    ring

theorem pfold_natDigits (m : Nat) : pfold 0 (natDigits m) = m := by
  unfold natDigits
  by_cases hm : m = 0
  · subst hm
    simp [pfold]
  · rw [if_neg hm, pfold_reverse]
    have h10 : ((10 : ℕ) : ℤ) = (10 : ℤ) := by norm_num
    rw [← h10, ← Nat.coe_int_ofDigits, Nat.ofDigits_digits]
    ring

theorem natDigits_lt (m : Nat) : ∀ d ∈ natDigits m, d < 10 := by
  intro d hd
  unfold natDigits at hd
  by_cases hm : m = 0
  · rw [if_pos hm] at hd
    simp at hd
    omega
  · rw [if_neg hm, List.mem_reverse] at hd
    exact Nat.digits_lt_base (by norm_num) hd

theorem natDigits_ne_nil (m : Nat) : natDigits m ≠ [] := by
  unfold natDigits
  by_cases hm : m = 0
  · simp [hm]
  · rw [if_neg hm]
    simp [Nat.digits_ne_nil_iff_ne_zero.mpr hm]

theorem readWholeLoop_digits :
    ∀ (ds : List Nat) (pre : List Char) (whole : Int) (fuel : Nat),
      (∀ d ∈ ds, d < 10) → ds ≠ [] → ds.length ≤ fuel →
      readWholeLoop fuel (pre ++ ds.map digitChar) pre.length whole =
        .ok (.eofInt (pre.length + ds.length) (wfold whole ds)) := by
  intro ds
  induction ds with
  | nil => intro pre whole fuel _ hne _; exact absurd rfl hne
  | cons d t ih =>
    intro pre whole fuel hlt _ hfuel
    obtain ⟨htn, hsep, hdot, hdash, hge, hle'⟩ :=
      digitChar_spec d (hlt d (by simp))
    have hd10 : d < 10 := hlt d (by simp)
    cases fuel with
    | zero => simp at hfuel
    | succ fuel =>
      rw [List.map_cons, readWholeLoop]
      have hdig : ((digitChar d).toNat : Int) - 48 = (d : Int) := by
        rw [htn]
        push_cast
        ring
      have hc1 : (isSeparator (digitChar d) || decide (digitChar d = '.')) = false := by
        rw [hsep]
        simp [hdot]
      have h1 : ¬((d : Int) < 0) := by omega
      have h2 : ¬((9 : Int) < (d : Int)) := by omega
      have hc2 : (decide ((d : Int) < 0) || decide (9 < (d : Int))) = false := by
        simp [h1, h2]
      simp only [curr_append_cons, hc1, Bool.false_eq_true, if_false, hdig,
        hc2]
      cases t with
      | nil =>
        have hcond : (pre ++ digitChar d :: List.map digitChar []).length ≤
            pre.length + 1 := by simp
        rw [if_pos hcond]
        rfl
      | cons e tt =>
        have hcond : ¬((pre ++ digitChar d ::
            List.map digitChar (e :: tt)).length ≤ pre.length + 1) := by
          simp
        rw [if_neg hcond]
        have hsplit : pre ++ digitChar d :: (e :: tt).map digitChar =
            (pre ++ [digitChar d]) ++ (e :: tt).map digitChar := by
          simp
        have hpos : pre.length + 1 = (pre ++ [digitChar d]).length := by
          simp
        rw [hsplit, hpos,
          ih (pre ++ [digitChar d]) (wrap64 (whole * 10 + d)) fuel
            (fun x hx => hlt x (by simp [hx])) (by simp)
            (by simp at hfuel ⊢; omega)]
        have heq : (pre ++ [digitChar d]).length + (e :: tt).length =
            pre.length + (d :: e :: tt).length := by
          simp
          omega
        rw [heq]
        rfl

theorem readNumberBody_digits (ds : List Nat) (pre : List Char) (sign : Int)
    (hlt : ∀ d ∈ ds, d < 10) (hne : ds ≠ []) :
    readNumberBody (pre ++ ds.map digitChar) pre.length sign =
      .ok (.IntegerConstant (wrap64 (sign * wfold 0 ds)),
        pre.length + ds.length) := by
  unfold readNumberBody
  rw [readWholeLoop_digits ds pre 0 ((pre ++ ds.map digitChar).length + 1)
    hlt hne (by simp; omega)]

theorem curr_cons (c : Char) (t : List Char) : curr (c :: t) 0 = .ok c := rfl

theorem readNumber_digits_pos (d : Nat) (t : List Nat)
    (hlt : ∀ x ∈ d :: t, x < 10) :
    readNumber ((d :: t).map digitChar) 0 =
      .ok (.IntegerConstant (wrap64 (1 * wfold 0 (d :: t))), (d :: t).length) := by
  obtain ⟨_, _, _, hdash, _, _⟩ := digitChar_spec d (hlt d (by simp))
  unfold readNumber
  simp only [List.map_cons, curr_cons]
  rw [if_neg hdash]
  have h := readNumberBody_digits (d :: t) [] 1 hlt (by simp)
  simp only [List.nil_append, List.length_nil, List.map_cons, Nat.zero_add] at h
  exact h

theorem readNumber_digits_neg (d : Nat) (t : List Nat)
    (hlt : ∀ x ∈ d :: t, x < 10) :
    readNumber ('-' :: (d :: t).map digitChar) 0 =
      .ok (.IntegerConstant (wrap64 (-1 * wfold 0 (d :: t))),
        1 + (d :: t).length) := by
  unfold readNumber
  simp only [List.map_cons, curr_cons]
  rw [if_pos trivial]
  simp only [Nat.zero_add]
  have hcur : curr ('-' :: digitChar d :: t.map digitChar) 1 =
      .ok (digitChar d) := rfl
  rw [hcur]
  have h := readNumberBody_digits (d :: t) ['-'] (-1) hlt (by simp)
  simp only [List.map_cons, List.singleton_append, List.length_singleton] at h
  exact h

theorem skipSeparators_head (c : Char) (t : List Char)
    (h : isSeparator c = false) : skipSeparators (c :: t) 0 = .ok 0 := by
  unfold skipSeparators
  rw [show (c :: t).length + 1 = t.length + 1 + 1 from by simp]
  rw [skipSeparatorsLoop]
  simp only [curr_cons, h, Bool.false_eq_true, if_false]

theorem numberStart_digit (c : Char) (t : List Char)
    (h : '0' ≤ c ∧ c ≤ '9') : numberStart (c :: t) 0 = .ok true := by
  unfold numberStart
  simp only [curr_cons]
  rw [if_pos h]

theorem numberStart_dash (c2 : Char) (t : List Char)
    (h : '0' ≤ c2 ∧ c2 ≤ '9') : numberStart ('-' :: c2 :: t) 0 = .ok true := by
  unfold numberStart
  simp only [curr_cons]
  rw [if_neg (by decide), if_pos trivial]
  have hpeek : peek ('-' :: c2 :: t) 0 1 = .ok c2 := rfl
  rw [hpeek]
  simp [h]

theorem tokenise_single (input : List Char) (tok : Token)
    (h1 : skipSeparators input 0 = .ok 0)
    (h2 : numberStart input 0 = .ok true)
    (h3 : readNumber input 0 = .ok (tok, input.length))
    (hlen : 1 ≤ input.length) :
    tokenise input = .ok [tok] := by
  unfold tokenise
  obtain ⟨k, hk⟩ : ∃ k, input.length = k + 1 := ⟨input.length - 1, by omega⟩
  rw [hk, tokeniseLoop]
  rw [if_neg (show ¬(input.length ≤ 0) by omega)]
  simp only [h1, h2, if_true, h3, List.nil_append]
  rw [if_pos (le_refl input.length), hk, tokeniseLoop]
  rw [if_pos (by omega)]

/-- C7 — round trip of integer literals: for every 64-bit signed integer
`n`, tokenising the decimal rendering of `n` succeeds and yields exactly
the one token `IntegerConstant n`.  (At `n = i64::MIN` the reader's two
wrapping steps — the magnitude accumulation and the sign application —
cancel exactly, reproducing `n`.) -/
theorem C7_integer_literal_round_trip (n : Int) (hlo : -(2 ^ 63) ≤ n)
    (hhi : n < 2 ^ 63) : tokenise (render n) = .ok [.IntegerConstant n] := by
  by_cases hneg : n < 0
  · have hm0 : n.natAbs ≠ 0 := by omega
    have hmle : (n.natAbs : Int) ≤ 2 ^ 63 := by omega
    obtain ⟨d, t, hds⟩ : ∃ d t, natDigits n.natAbs = d :: t := by
      cases h : natDigits n.natAbs with
      | nil => exact absurd h (natDigits_ne_nil _)
      | cons d t => exact ⟨d, t, rfl⟩
    have hlt : ∀ x ∈ d :: t, x < 10 := by
      rw [← hds]
      exact natDigits_lt _
    obtain ⟨_, _, _, _, hge, hle'⟩ := digitChar_spec d (hlt d (by simp))
    have hrender : render n = '-' :: (d :: t).map digitChar := by
      unfold render
      rw [if_pos hneg, hds]
    have hp : pfold 0 (d :: t) = (n.natAbs : Int) := by
      rw [← hds, pfold_natDigits]
    have hwf : wfold 0 (d :: t) = wrap64 (n.natAbs : Int) := by
      rw [wfold_eq_wrap_pfold (d :: t) 0 (by simp) (le_refl 0)
        (by rw [hp]; exact hmle), hp]
    have hval : wrap64 (-1 * wfold 0 (d :: t)) = n := by
      rw [hwf]
      by_cases hm : (n.natAbs : Int) = 2 ^ 63
      · rw [hm, wrap64_pow63]
        have hflip : (-1 : Int) * -(2 ^ 63) = 2 ^ 63 := by ring
        rw [hflip, wrap64_pow63]
        omega
      · have h1 : wrap64 (n.natAbs : Int) = n.natAbs :=
          wrap64_eq_self _ (by omega) (by omega)
        rw [h1]
        have h2 : wrap64 (-1 * (n.natAbs : Int)) = -1 * n.natAbs :=
          wrap64_eq_self _ (by omega) (by omega)
        rw [h2]
        omega
    have h3 := readNumber_digits_neg d t hlt
    rw [hval] at h3
    have hlen : ('-' :: (d :: t).map digitChar).length = 1 + (d :: t).length := by
      simp
      omega
    rw [hrender]
    exact tokenise_single _ _
      (skipSeparators_head '-' _ (by decide))
      (by simp only [List.map_cons]
          exact numberStart_dash (digitChar d) _ ⟨hge, hle'⟩)
      (by rw [hlen]; exact h3)
      (by simp)
  · push_neg at hneg
    have hm0 : (n.toNat : Int) = n := Int.toNat_of_nonneg hneg
    obtain ⟨d, t, hds⟩ : ∃ d t, natDigits n.toNat = d :: t := by
      cases h : natDigits n.toNat with
      | nil => exact absurd h (natDigits_ne_nil _)
      | cons d t => exact ⟨d, t, rfl⟩
    have hlt : ∀ x ∈ d :: t, x < 10 := by
      rw [← hds]
      exact natDigits_lt _
    obtain ⟨_, hsep, _, _, hge, hle'⟩ := digitChar_spec d (hlt d (by simp))
    have hrender : render n = (d :: t).map digitChar := by
      unfold render
      rw [if_neg (by omega), hds]
    have hp : pfold 0 (d :: t) = (n.toNat : Int) := by
      rw [← hds, pfold_natDigits]
    have hwf : wfold 0 (d :: t) = wrap64 (n.toNat : Int) := by
      rw [wfold_eq_wrap_pfold (d :: t) 0 (by simp) (le_refl 0)
        (by rw [hp]; omega), hp]
    have hval : wrap64 (1 * wfold 0 (d :: t)) = n := by
      have hin : wrap64 (n.toNat : Int) = (n.toNat : Int) :=
        wrap64_eq_self _ (by omega) (by omega)
      rw [hwf, one_mul, hin, hin]
      omega
    have h3 := readNumber_digits_pos d t hlt
    rw [hval] at h3
    have hlen : ((d :: t).map digitChar).length = (d :: t).length := by simp
    rw [hrender]
    exact tokenise_single _ _
      (by simp only [List.map_cons]
          exact skipSeparators_head (digitChar d) _ hsep)
      (by simp only [List.map_cons]
          exact numberStart_digit (digitChar d) _ ⟨hge, hle'⟩)
      (by rw [hlen]; exact h3)
      (by simp)

/-- Witness for C7 at `n = -12`: tokenising `"-12"` yields exactly
`IntegerConstant (-12)`. -/
theorem C7_integer_literal_round_trip_witness :
    tokenise (render (-12)) = .ok [.IntegerConstant (-12)] :=
  C7_integer_literal_round_trip (-12) (by norm_num) (by norm_num)

end Bloodbath

